import Mathlib

/-!
Verification of the caching / rate-limited fetch layer and the fan-out
orchestrator of `aareguru_mcp` (files `client.py`, `service.py`, `helpers.py`).

The Python code is shallowly embedded: dictionaries become association
lists with Python-dict insertion semantics, `datetime` instants and
temperatures become integers (logical ticks: every claim is about
orderings and affine relations, which any time/temperature unit
preserves), the HTTP transport becomes a deterministic
oracle `String → Params → Except NetError D`, and exceptions become
`Except`.  Stateful methods of `AareguruClient` are explicit
state-passing functions over `ClientState`.
-/

namespace Aareguru

/-! ### Python dict model (`params`, caches, `forecasts`)

A Python `dict[str, V]` is an association list with unique keys kept in
insertion order; `d[k] = v` replaces in place when the key is present and
appends otherwise. -/

abbrev Params := List (String × String)

instance {ε α : Type} [DecidableEq ε] [DecidableEq α] : DecidableEq (Except ε α)
  | .ok x, .ok y =>
      if h : x = y then .isTrue (by rw [h])
      else .isFalse (by intro he; cases he; exact h rfl)
  | .ok _, .error _ => .isFalse (by intro h; cases h)
  | .error _, .ok _ => .isFalse (by intro h; cases h)
  | .error e, .error f =>
      if h : e = f then .isTrue (by rw [h])
      else .isFalse (by intro he; cases he; exact h rfl)

/-- Python dict assignment `d[k] = v`: replace the binding in place if the
key is present, else append at the end. -/
def dinsert {V : Type} (k : String) (v : V) : List (String × V) → List (String × V)
  | [] => [(k, v)]
  | (k', v') :: rest => if k' = k then (k, v) :: rest else (k', v') :: dinsert k v rest

/-- Python dict lookup `d.get(k)`. -/
def lookupParam {V : Type} : List (String × V) → String → Option V
  | [], _ => none
  | (k', v) :: rest, k => if k' = k then some v else lookupParam rest k

/-- `params = params or {}` (client.py line 164): `None` and the empty dict
both yield an empty dict; a non-empty dict is used as-is (same object). -/
def paramsOrEmpty : Option Params → Params
  | none => []
  | some p => p

/-! ### Cache key (`_get_cache_key`, client.py lines 107-110)

`urlencode(sorted(params.items()))`: Python sorts the `(key, value)`
tuples lexicographically (keys first, values on key ties) and then
URL-encodes them.  Percent-escaping is injective and irrelevant to the
equality claims, so `urlencodeModel` renders the sorted pair list
directly. -/

/-- Python tuple comparison `(k1,v1) <= (k2,v2)` on string pairs. -/
def pairLe (a b : String × String) : Prop :=
  a.1 < b.1 ∨ (a.1 = b.1 ∧ a.2 ≤ b.2)

instance : DecidableRel pairLe := fun a b =>
  inferInstanceAs (Decidable (a.1 < b.1 ∨ (a.1 = b.1 ∧ a.2 ≤ b.2)))

instance : IsTotal (String × String) pairLe where
  total a b := by
    rcases lt_trichotomy a.1 b.1 with h | h | h
    · exact Or.inl (Or.inl h)
    · rcases le_total a.2 b.2 with h2 | h2
      · exact Or.inl (Or.inr ⟨h, h2⟩)
      · exact Or.inr (Or.inr ⟨h.symm, h2⟩)
    · exact Or.inr (Or.inl h)

instance : IsTrans (String × String) pairLe where
  trans a b c hab hbc := by
    rcases hab with h1 | ⟨e1, v1⟩
    · rcases hbc with h2 | ⟨e2, _⟩
      · exact Or.inl (h1.trans h2)
      · exact Or.inl (e2 ▸ h1)
    · rcases hbc with h2 | ⟨e2, v2⟩
      · exact Or.inl (e1 ▸ h2)
      · exact Or.inr ⟨e1.trans e2, v1.trans v2⟩

instance : IsAntisymm (String × String) pairLe where
  antisymm a b hab hba := by
    rcases hab with h1 | ⟨e1, v1⟩
    · rcases hba with h2 | ⟨e2, _⟩
      · exact absurd (h1.trans h2) (lt_irrefl _)
      · exact absurd h1 (e2 ▸ lt_irrefl _)
    · rcases hba with h2 | ⟨e2, v2⟩
      · exact absurd h2 (e1 ▸ lt_irrefl _)
      · exact Prod.ext e1 (le_antisymm v1 v2)

/-- `sorted(params.items())`. -/
def sortedParams (p : Params) : Params :=
  List.insertionSort pairLe p

/-- `urlencode` on an already-sorted pair list (escaping abstracted away). -/
def urlencodeModel (p : Params) : String :=
  String.intercalate "&" (p.map (fun kv => kv.1 ++ "=" ++ kv.2))

/-- `_get_cache_key` (client.py lines 107-110):
`f"{endpoint}?{urlencode(sorted(params.items()))}"`. -/
def getCacheKey (endpoint : String) (p : Params) : String :=
  endpoint ++ "?" ++ urlencodeModel (sortedParams p)

/-! ### `CacheEntry` (client.py lines 18-36) -/

/-- `CacheEntry`: data plus absolute expiry instant. -/
structure CacheEntry (D : Type) where
  data : D
  expiresAt : ℤ
  deriving DecidableEq

/-- `CacheEntry.__init__`: `expires_at = datetime.now() + timedelta(seconds=ttl)`. -/
def mkCacheEntry {D : Type} (d : D) (ttl : ℤ) (now : ℤ) : CacheEntry D :=
  ⟨d, now + ttl⟩

/-- `CacheEntry.is_expired`: `datetime.now() > self.expires_at`. -/
def isExpired {D : Type} (e : CacheEntry D) (now : ℤ) : Bool :=
  decide (e.expiresAt < now)

/-! ### In-memory cache (`self._cache`, client.py lines 112-128) -/

abbrev Cache (D : Type) := List (String × CacheEntry D)

/-- Dict lookup `self._cache[key]` guarded by `key in self._cache`. -/
def cacheLookup {D : Type} (c : Cache D) (k : String) : Option (CacheEntry D) :=
  lookupParam c k

/-- `del self._cache[key]`. -/
def cacheErase {D : Type} (c : Cache D) (k : String) : Cache D :=
  c.filter (fun kv => kv.1 ≠ k)

/-- `_set_cache` (lines 125-128): `self._cache[key] = CacheEntry(data, ttl)`. -/
def cacheSet {D : Type} (c : Cache D) (k : String) (e : CacheEntry D) : Cache D :=
  dinsert k e c

/-- `_get_cached` (lines 112-123): return the entry's data if present and
not expired; remove an expired entry as a side effect of the lookup. -/
def getCached {D : Type} (c : Cache D) (k : String) (now : ℤ) : Option D × Cache D :=
  match cacheLookup c k with
  | none => (none, c)
  | some e => if isExpired e now then (none, cacheErase c k) else (some e.data, c)

/-! ### Rate limiting (`_rate_limit`, client.py lines 130-142)

The whole check-sleep-update sequence runs inside `self._request_lock`,
so callers of one client execute it serially; each step is therefore one
atomic transition.  When `elapsed < min_interval` the coroutine sleeps
exactly the deficit and then records the wake-up instant
`last + min_interval`; otherwise it dispatches at `now`. -/

/-- One serialized pass through `_rate_limit`: returns the dispatch
instant and the updated `_last_request_time`. -/
def rateLimitStep (minInterval : ℤ) (last : Option ℤ) (now : ℤ) : ℤ × Option ℤ :=
  match last with
  | none => (now, some now)
  | some l =>
      if now - l < minInterval then (l + minInterval, some (l + minInterval))
      else (now, some now)

/-- Dispatch instants of a serialized sequence of `_rate_limit` passes of
one client, given the arrival instant of each pass. -/
def throttleTrace (minInterval : ℤ) : Option ℤ → List ℤ → List ℤ
  | _, [] => []
  | last, now :: rest =>
      let s := rateLimitStep minInterval last now
      s.1 :: throttleTrace minInterval s.2 rest

/-! ### `AareguruClient` state and `_request` (client.py lines 50-203) -/

/-- The settings fields consumed by the client. -/
structure Config where
  appName : String
  appVersion : String
  cacheTtl : ℤ
  minInterval : ℤ
  deriving DecidableEq

/-- Mutable state of one `AareguruClient` instance. -/
structure ClientState (D : Type) where
  cache : Cache D
  lastRequestTime : Option ℤ
  deriving DecidableEq

/-- `AareguruClient.__init__`: empty cache, no last request time. -/
def initClient (D : Type) : ClientState D :=
  ⟨[], none⟩

/-- Transport-level failures of `_request`. -/
inductive NetError where
  | httpStatusError (code : Nat)
  | requestError
  | invalidJson
  deriving DecidableEq

/-- Deterministic oracle for `self.http_client.get` +
`raise_for_status` + `response.json()`. -/
abbrev Net (D : Type) := String → Params → Except NetError D

/-- Parameter dict used by `_request` (lines 164-168): caller params with
`params["app"]` and `params["version"]` assigned on top. -/
def requestParams (cfg : Config) (params0 : Option Params) : Params :=
  dinsert "version" cfg.appVersion (dinsert "app" cfg.appName (paramsOrEmpty params0))

/-- `params or {}` rebinds the local name to a fresh dict when the caller
passed `None` or an empty dict; a non-empty caller dict is the very
object mutated by the `params["app"]`/`params["version"]` assignments.
This models what the caller's dictionary holds after `_request`. -/
def callerParamsAfter (cfg : Config) (params0 : Option Params) : Option Params :=
  match params0 with
  | none => none
  | some [] => some []
  | some p => some (requestParams cfg (some p))

/-- `_request` (client.py lines 144-203) as a state transition.  Returns
the response (or error), the updated client state, and the number of
outbound network calls performed.  The cache entry's creation instant is
the dispatch instant (the logical clock after the throttle wait). -/
def requestModel {D : Type} (cfg : Config) (net : Net D) (st : ClientState D) (now : ℤ)
    (endpoint : String) (params0 : Option Params) (useCache : Bool) :
    Except NetError D × ClientState D × Nat :=
  let p := requestParams cfg params0
  let key := getCacheKey endpoint p
  let checked := if useCache then getCached st.cache key now else (none, st.cache)
  match checked.1 with
  | some d => (.ok d, ⟨checked.2, st.lastRequestTime⟩, 0)
  | none =>
      let rl := rateLimitStep cfg.minInterval st.lastRequestTime now
      match net endpoint p with
      | .ok d =>
          let c2 := if useCache then cacheSet checked.2 key (mkCacheEntry d cfg.cacheTtl rl.1)
                    else checked.2
          (.ok d, ⟨c2, rl.2⟩, 1)
      | .error e => (.error e, ⟨checked.2, rl.2⟩, 1)

/-! ### Typed decoding (`get_current`, client.py lines 246-264)

`get_current` calls `_request("/v2018/current", {"city": city})` and then
validates the raw JSON dict with `CurrentResponse(**data)`; a
`ValidationError` is logged and re-raised.  The decoder is the abstract
schema validator supplied per response type. -/

/-- Failures surfaced by a typed fetch. -/
inductive FetchError where
  | transport (e : NetError)
  | validation (msg : String)
  deriving DecidableEq

/-- `AareData` fields used by the service layer (models.py). -/
structure AareData where
  location : Option String
  locationLong : Option String
  temperature : Option ℤ
  temperatureText : Option String
  flow : Option ℤ
  forecast2h : Option ℤ
  deriving DecidableEq

/-- `CurrentResponse` fields used by the service layer. -/
structure CurrentResp where
  aare : Option AareData
  deriving DecidableEq

/-- `CurrentResponse(**data)` under the `try`/`except ValidationError`
of `get_current`: a decode failure is re-raised as the validation error. -/
def decodeCurrent {D : Type} (dec : D → Except String CurrentResp) (d : D) :
    Except FetchError CurrentResp :=
  match dec d with
  | .ok r => .ok r
  | .error msg => .error (.validation msg)

/-- Result of `get_current` as a function of the `_request` outcome:
transport errors propagate unchanged, successful payloads are decoded. -/
def getCurrentResult {D : Type} (dec : D → Except String CurrentResp) :
    Except NetError D → Except FetchError CurrentResp
  | .error e => .error (.transport e)
  | .ok d => decodeCurrent dec d

/-- `get_current` (client.py lines 246-264): `_request` with
`{"city": city}`, then schema validation of the raw dict; the client
state afterwards is the state `_request` left, whether or not
validation succeeds. -/
def getCurrentModel {D : Type} (cfg : Config) (net : Net D)
    (dec : D → Except String CurrentResp) (st : ClientState D) (now : ℤ)
    (city : String) : Except FetchError CurrentResp × ClientState D :=
  let rq := requestModel cfg net st now "/v2018/current" (some [("city", city)]) true
  (getCurrentResult dec rq.1, rq.2.1)

/-! ### Fan-out: `compare_cities` (service.py lines 283-409)

`compare_cities` runs `fetch_conditions` for every city via
`asyncio.gather(..., return_exceptions=True)`, which yields one outcome
per input city in input order.  `fetch_conditions` catches every
`Exception` and returns `{"city", "result", "error"}`, so each per-city
outcome is a success response or an error string; the post-gather loop
then sends each item either to `city_data` or to `errors`.  The per-city
operation is abstracted as `op : String → Except String CurrentResp`. -/

/-- One element of `city_data`. -/
structure CityEntry where
  city : String
  temperature : Option ℤ
  flow : Option ℤ
  safe : Bool
  temperatureText : Option String
  location : Option String
  deriving DecidableEq

/-- One element of `errors`. -/
structure ErrItem where
  city : String
  error : String
  deriving DecidableEq

/-- `result.aare.flow < 150 if result.aare.flow else True` (line 369):
Python truthiness makes both `None` and `0.0` take the `else` branch. -/
def pySafe (flow : Option ℤ) : Bool :=
  match flow with
  | none => true
  | some f => if f = 0 then true else decide (f < 150)

/-- Per-city outcome of `fetch_conditions` plus the post-gather checks
(lines 316-378): an error string goes to `errors`, a response without
`aare` data goes to `errors`, otherwise a `city_data` entry is built. -/
def procCompare (op : String → Except String CurrentResp) (city : String) :
    Except ErrItem CityEntry :=
  match op city with
  | .error e => .error ⟨city, e⟩
  | .ok r =>
      match r.aare with
      | none => .error ⟨city, "No aare data available"⟩
      | some a =>
          .ok ⟨city, a.temperature, a.flow, pySafe a.flow, a.temperatureText, a.location⟩

/-- `city_data` before sorting: successes in input order. -/
def cityData (op : String → Except String CurrentResp) (cities : List String) :
    List CityEntry :=
  cities.filterMap (fun c => (procCompare op c).toOption)

/-- `errors`: failures in input order. -/
def compErrors (op : String → Except String CurrentResp) (cities : List String) :
    List ErrItem :=
  cities.filterMap (fun c =>
    match procCompare op c with
    | .error e => some e
    | .ok _ => none)

/-- Sort key `x["temperature"] or 0` (line 382): `None` and `0.0` are
falsy and yield `0`. -/
def tempKey (e : CityEntry) : ℤ :=
  match e.temperature with
  | none => 0
  | some q => if q = 0 then 0 else q

/-- The ordering used by `city_data.sort(key=..., reverse=True)`:
Python's stable sort with `reverse=True` keeps elements with equal keys
in input order, so it is a stable descending insertion sort. -/
def tempGE (a b : CityEntry) : Prop :=
  tempKey b ≤ tempKey a

instance : DecidableRel tempGE := fun a b =>
  inferInstanceAs (Decidable (tempKey b ≤ tempKey a))

/-- `city_data` after the in-place sort (line 382). -/
def sortedCityData (op : String → Except String CurrentResp) (cities : List String) :
    List CityEntry :=
  List.insertionSort tempGE (cityData op cities)

/-- `RuntimeError` raised when every city failed (lines 391-399 and
520-528): carries the requested count and the first 3 per-key errors. -/
structure AllFailed where
  requested : Nat
  summary : List ErrItem
  deriving DecidableEq

/-- Return value of `compare_cities` (lines 401-409). -/
structure CompareResult where
  cities : List CityEntry
  warmest : Option CityEntry
  coldest : Option CityEntry
  safeCount : Nat
  totalCount : Nat
  requestedCount : Nat
  errors : Option (List ErrItem)
  deriving DecidableEq

/-- `compare_cities` (service.py lines 283-409) over an explicit city
list: process every per-city outcome, sort successes by temperature
descending, raise `RuntimeError` iff every city failed and the request
was non-empty. -/
def compareCities (op : String → Except String CurrentResp) (cities : List String) :
    Except AllFailed CompareResult :=
  let data := sortedCityData op cities
  let errs := compErrors op cities
  let successCount := data.length
  let totalCount := cities.length
  if successCount = 0 ∧ 0 < totalCount then
    .error ⟨totalCount, errs.take 3⟩
  else
    .ok ⟨data, data.head?, data.getLast?,
         (data.filter (fun c => c.safe)).length, successCount, totalCount,
         if errs = [] then none else some errs⟩

/-! ### Fan-out: `get_forecasts` (service.py lines 411-535) -/

/-- One value of the `forecasts` dict. -/
structure ForecastEntry where
  current : Option ℤ
  forecast2h : Option ℤ
  trend : String
  change : Option ℤ
  deriving DecidableEq

/-- Trend calculation (lines 453-460). -/
def trendOf (current forecast2h : Option ℤ) : String :=
  match current, forecast2h with
  | none, _ => "unknown"
  | some _, none => "unknown"
  | some c, some f => if c < f then "rising" else if f < c then "falling" else "stable"

/-- `forecast_2h - current if (forecast_2h and current) else None`
(lines 469-471): Python truthiness makes `None` and `0.0` yield `None`. -/
def pyChange (forecast2h current : Option ℤ) : Option ℤ :=
  match forecast2h, current with
  | some f, some c => if f = 0 ∨ c = 0 then none else some (f - c)
  | _, _ => none

/-- Per-city outcome of `fetch_forecast` (lines 437-481). -/
def procForecast (op : String → Except String CurrentResp) (city : String) :
    Except ErrItem ForecastEntry :=
  match op city with
  | .error e => .error ⟨city, e⟩
  | .ok r =>
      match r.aare with
      | none => .error ⟨city, "No aare data available"⟩
      | some a =>
          .ok ⟨a.temperature, a.forecast2h, trendOf a.temperature a.forecast2h,
               pyChange a.forecast2h a.temperature⟩

/-- One iteration of the `get_forecasts` post-gather loop over the
`forecasts` dict: `forecasts[city] = result` on success, no-op on error. -/
def forecastStepFold (op : String → Except String CurrentResp)
    (acc : List (String × ForecastEntry)) (c : String) : List (String × ForecastEntry) :=
  match procForecast op c with
  | .ok f => dinsert c f acc
  | .error _ => acc

/-- The `forecasts` dict built by the post-gather loop
(lines 488-511): `forecasts[city] = result` for every success. -/
def forecastsMap (op : String → Except String CurrentResp) (cities : List String) :
    List (String × ForecastEntry) :=
  cities.foldl (forecastStepFold op) []

/-- `errors` accumulated by the `get_forecasts` post-gather loop. -/
def forecastErrors (op : String → Except String CurrentResp) (cities : List String) :
    List ErrItem :=
  cities.filterMap (fun c =>
    match procForecast op c with
    | .error e => some e
    | .ok _ => none)

/-- Return value of `get_forecasts` (lines 530-535). -/
structure ForecastResult where
  forecasts : List (String × ForecastEntry)
  successCount : Nat
  requestedCount : Nat
  errors : Option (List ErrItem)
  deriving DecidableEq

/-- `get_forecasts` (service.py lines 411-535). -/
def getForecasts (op : String → Except String CurrentResp) (cities : List String) :
    Except AllFailed ForecastResult :=
  let fs := forecastsMap op cities
  let errs := forecastErrors op cities
  let successCount := fs.length
  let totalCount := cities.length
  if successCount = 0 ∧ 0 < totalCount then
    .error ⟨totalCount, errs.take 3⟩
  else
    .ok ⟨fs, successCount, totalCount, if errs = [] then none else some errs⟩

/-! ### Extremal picks

`warmest = city_data[0] if city_data else None` and
`coldest = city_data[-1]` read off the stable descending sort; the
`get_warmer_suggestion` loop (helpers.py lines 97-121) keeps the first
city whose temperature strictly exceeds the running maximum
(initialized to `-100.0`). -/

/-- First-encountered element with the maximal key (ties keep the
earlier element). -/
def argmaxFirst {α : Type} (key : α → ℤ) : List α → Option α
  | [] => none
  | x :: xs =>
      match argmaxFirst key xs with
      | none => some x
      | some y => if key x < key y then some y else some x

/-- Last-encountered element with the minimal key (ties keep the later
element). -/
def argminLast {α : Type} (key : α → ℤ) : List α → Option α
  | [] => none
  | x :: xs =>
      match argminLast key xs with
      | none => some x
      | some y => if key y ≤ key x then some y else some x

/-- One city record of the `/v2018/cities` response, as used by
`get_warmer_suggestion`. -/
structure CityInfo where
  city : String
  name : String
  aare : Option ℤ
  deriving DecidableEq

/-- Loop body of `get_warmer_suggestion` (helpers.py lines 107-111):
skip the current city and cities without data; replace the running
maximum only on a strict increase. -/
def suggestionStep (currentCity : String) (acc : Option CityInfo × ℤ) (c : CityInfo) :
    Option CityInfo × ℤ :=
  if c.city ≠ currentCity then
    match c.aare with
    | some t => if acc.2 < t then (some c, t) else acc
    | none => acc
  else acc

/-- The candidate scan of `get_warmer_suggestion`: fold over the cities
list starting from `warmest = None`, `max_temp = -100.0`. -/
def suggestionPick (currentCity : String) (cs : List CityInfo) : Option CityInfo × ℤ :=
  cs.foldl (suggestionStep currentCity) (none, -100)

/-- `get_warmer_suggestion` (helpers.py lines 87-121), with the cities
response supplied as data: `None` when the current temperature is
missing or at least 18; otherwise the warmest other city, provided it is
more than 1 degree warmer. -/
def getWarmerSuggestion (currentCity : String) (currentTemp : Option ℤ)
    (cs : List CityInfo) : Option CityInfo :=
  match currentTemp with
  | none => none
  | some t =>
      if 18 ≤ t then none
      else
        let pick := suggestionPick currentCity cs
        match pick.1 with
        | some w => if t + 1 < pick.2 then some w else none
        | none => none

/-! ## Helper lemmas -/

theorem mem_dinsert_self {V : Type} (k : String) (v : V) (l : List (String × V)) :
    (k, v) ∈ dinsert k v l := by
  induction l with
  | nil => simp [dinsert]
  | cons a rest ih =>
      obtain ⟨k', v'⟩ := a
      by_cases h : k' = k <;> simp [dinsert, h, ih]

theorem mem_dinsert_of_ne {V : Type} {k k' : String} {v : V} (v' : V)
    {l : List (String × V)} (hm : (k, v) ∈ l) (hne : k ≠ k') :
    (k, v) ∈ dinsert k' v' l := by
  induction l with
  | nil => simp at hm
  | cons a rest ih =>
      obtain ⟨a1, a2⟩ := a
      by_cases h : a1 = k'
      · subst h
        rcases List.mem_cons.mp hm with he | hm'
        · exact absurd (congrArg Prod.fst he) hne
        · simp [dinsert, List.mem_cons, hm']
      · rcases List.mem_cons.mp hm with he | hm'
        · simp [dinsert, h, he.symm]
        · simp [dinsert, h, ih hm']

theorem lookup_dinsert_self {V : Type} (k : String) (v : V) (l : List (String × V)) :
    lookupParam (dinsert k v l) k = some v := by
  induction l with
  | nil => simp [dinsert, lookupParam]
  | cons a rest ih =>
      obtain ⟨a1, a2⟩ := a
      by_cases h : a1 = k <;> simp [dinsert, lookupParam, h, ih]

theorem lookup_dinsert_ne {V : Type} {k k' : String} (v : V) (l : List (String × V))
    (hne : k' ≠ k) : lookupParam (dinsert k v l) k' = lookupParam l k' := by
  induction l with
  | nil => simp [dinsert, lookupParam, Ne.symm hne]
  | cons a rest ih =>
      obtain ⟨a1, a2⟩ := a
      by_cases h : a1 = k
      · subst h
        simp [dinsert, lookupParam, Ne.symm hne]
      · by_cases h2 : a1 = k' <;> simp [dinsert, lookupParam, h, h2, hne, ih]

theorem dinsert_ne_nil {V : Type} (k : String) (v : V) (l : List (String × V)) :
    dinsert k v l ≠ [] := by
  cases l with
  | nil => simp [dinsert]
  | cons a rest =>
      obtain ⟨a1, a2⟩ := a
      by_cases h : a1 = k <;> simp [dinsert, h]

theorem lookup_erase_self {D : Type} (c : Cache D) (k : String) :
    cacheLookup (cacheErase c k) k = none := by
  induction c with
  | nil => rfl
  | cons a rest ih =>
      obtain ⟨a1, a2⟩ := a
      by_cases h : a1 = k <;>
        simp [cacheErase, cacheLookup, lookupParam, List.filter, h] at ih ⊢ <;>
        exact ih

theorem lookup_erase_ne {D : Type} (c : Cache D) {k k' : String} (hne : k' ≠ k) :
    cacheLookup (cacheErase c k) k' = cacheLookup c k' := by
  induction c with
  | nil => rfl
  | cons a rest ih =>
      obtain ⟨a1, a2⟩ := a
      by_cases h : a1 = k
      · subst h
        simp [cacheErase, cacheLookup, lookupParam, List.filter, Ne.symm hne] at ih ⊢
        exact ih
      · by_cases h2 : a1 = k' <;>
          simp [cacheErase, cacheLookup, lookupParam, List.filter, h, h2, hne] at ih ⊢ <;>
          exact ih

theorem getCached_hit {D : Type} (c : Cache D) (k : String) (now : ℤ) (e : CacheEntry D)
    (h1 : cacheLookup c k = some e) (h2 : isExpired e now = false) :
    getCached c k now = (some e.data, c) := by
  simp [getCached, h1, h2]

theorem getCached_miss_lookup {D : Type} (c : Cache D) (k : String) (now : ℤ)
    (h : (getCached c k now).1 = none) : cacheLookup (getCached c k now).2 k = none := by
  unfold getCached at h ⊢
  cases hl : cacheLookup c k with
  | none => simp [hl]
  | some e =>
      simp only [hl] at h ⊢
      by_cases he : isExpired e now = true
      · simp [he, lookup_erase_self]
      · simp [he] at h

theorem getCached_snd_lookup_ne {D : Type} (c : Cache D) (k : String) (now : ℤ)
    {k' : String} (hne : k' ≠ k) :
    cacheLookup (getCached c k now).2 k' = cacheLookup c k' := by
  unfold getCached
  cases hl : cacheLookup c k with
  | none => rfl
  | some e =>
      by_cases he : isExpired e now = true <;> simp [he, lookup_erase_ne c hne]

/-! ## C7: cache fingerprint is order-independent -/

/-- C7 (confirmed).  For every endpoint and every parameter list, the
cache fingerprint `_get_cache_key` is invariant under permutation of the
parameter entries: the key is built from `sorted(params.items())`, and a
sorted list is a canonical representative of its permutation class. -/
theorem cache_key_order_independent (endpoint : String) (p q : Params) (h : p.Perm q) :
    getCacheKey endpoint p = getCacheKey endpoint q := by
  unfold getCacheKey sortedParams
  have hs : List.insertionSort pairLe p = List.insertionSort pairLe q :=
    List.eq_of_perm_of_sorted
      ((List.perm_insertionSort pairLe p).trans
        (h.trans (List.perm_insertionSort pairLe q).symm))
      (List.sorted_insertionSort pairLe p) (List.sorted_insertionSort pairLe q)
  rw [hs]

/-- Witness for C7 at a concrete permutation of a concrete parameter map. -/
theorem cache_key_order_independent_witness :
    ([("city", "bern"), ("app", "x")] : Params).Perm [("app", "x"), ("city", "bern")] ∧
    getCacheKey "/v2018/current" [("city", "bern"), ("app", "x")] =
      getCacheKey "/v2018/current" [("app", "x"), ("city", "bern")] :=
  ⟨List.Perm.swap _ _ _,
   cache_key_order_independent "/v2018/current" _ _ (List.Perm.swap _ _ _)⟩

/-! ## C8: cache entry validity boundary -/

/-- C8 counterexample.  The claim says an entry inserted with
`ttlSeconds = 0` reports `is_expired()` true with zero elapsed time and
that validity is `now < expiresAt`.  In the code `is_expired` is
`datetime.now() > self.expires_at`, so an entry created at instant 0
with ttl 0 (hence `expiresAt = 0`) is NOT expired at instant 0: at the
boundary `now = expiresAt` the entry is still valid. -/
theorem cache_entry_boundary_cx :
    isExpired (mkCacheEntry (0 : ℕ) 0 0) 0 = false := by decide

/-- C8 (amended).  An entry is valid iff `now ≤ expiresAt` (expired iff
`now > expiresAt`); an entry inserted with ttl 0 is expired at every
strictly positive elapsed time; an expired entry is treated as absent by
`_get_cached` and removed from the cache as a side effect of the lookup. -/
theorem cache_entry_validity_amended {D : Type} (e : CacheEntry D) (now : ℤ) (d : D)
    (t now' : ℤ) (c : Cache D) (k : String) (e' : CacheEntry D) :
    (isExpired e now = false ↔ now ≤ e.expiresAt) ∧
    (t < now' → isExpired (mkCacheEntry d 0 t) now' = true) ∧
    (cacheLookup c k = some e' → isExpired e' now' = true →
      getCached c k now' = (none, cacheErase c k)) := by
  refine ⟨?_, ?_, ?_⟩
  · simp [isExpired, not_lt]
  · intro h
    simp [isExpired, mkCacheEntry]
    linarith
  · intro h1 h2
    simp [getCached, h1, h2]

/-- Witness for C8's amended theorem: a ttl-0 entry created at instant 0
is expired at instant 1, and an expired entry is evicted by lookup. -/
theorem cache_entry_validity_amended_witness :
    isExpired (mkCacheEntry (0 : ℕ) 0 0) 1 = true ∧
    getCached [("k", mkCacheEntry (5 : ℕ) 0 0)] "k" 1 = (none, []) := by
  constructor
  · exact (cache_entry_validity_amended (mkCacheEntry (0 : ℕ) 0 0) 0 0 0 1 [] "k"
      (mkCacheEntry (0 : ℕ) 0 0)).2.1 (by norm_num)
  · have h := (cache_entry_validity_amended (mkCacheEntry (5 : ℕ) 0 0) 0 5 0 1
      [("k", mkCacheEntry (5 : ℕ) 0 0)] "k" (mkCacheEntry (5 : ℕ) 0 0)).2.2
      (by decide) (by decide)
    simpa using h

/-! ## C5: throttle spacing -/

theorem rateLimitStep_snd (t : ℤ) (last : Option ℤ) (now : ℤ) :
    (rateLimitStep t last now).2 = some (rateLimitStep t last now).1 := by
  unfold rateLimitStep
  cases last with
  | none => rfl
  | some l => by_cases h : now - l < t <;> simp [h]

theorem rateLimitStep_gap (t l now : ℤ) :
    l + t ≤ (rateLimitStep t (some l) now).1 := by
  unfold rateLimitStep
  by_cases h : now - l < t <;> simp [h] <;> linarith

theorem throttleTrace_spacing (t : ℤ) :
    ∀ (ts : List ℤ) (last : Option ℤ),
      (throttleTrace t last ts).Chain' (fun a b => a + t ≤ b) ∧
      (∀ l d, last = some l → (throttleTrace t last ts).head? = some d → l + t ≤ d) := by
  intro ts
  induction ts with
  | nil => exact fun _ => ⟨List.chain'_nil, by intro l d _ hd; simp [throttleTrace] at hd⟩
  | cons now rest ih =>
      intro last
      constructor
      · rw [throttleTrace, List.chain'_cons']
        refine ⟨?_, (ih _).1⟩
        intro b hb
        exact (ih (rateLimitStep t last now).2).2 _ b (rateLimitStep_snd t last now) hb
      · intro l d hl hd
        rw [throttleTrace] at hd
        simp only [List.head?_cons, Option.some.injEq] at hd
        subst hl hd
        exact rateLimitStep_gap t l now

/-- C5 counterexample.  The claim says the throttle's last-dispatch
timestamp is a single gate shared by all callers in the process.  In the
code `_last_request_time` and `_request_lock` are instance attributes of
`AareguruClient`, and every service method constructs a fresh client
(`async with AareguruClient(settings=...)`), so two clients do not share
the gate: with `min_request_interval_seconds = 5`, a fresh client A
dispatches at instant 0 (`throttleTrace`), and a second fresh client B —
whose state is `initClient`, unaffected by A's dispatch — also dispatches
at instant 0; the two process-wide dispatches are 0 < 5 apart. -/
theorem throttle_not_process_global_cx :
    throttleTrace 5 (initClient ℕ).lastRequestTime [0] = [0] ∧
    (rateLimitStep 5 (initClient ℕ).lastRequestTime 0).1 = 0 ∧
    ¬ ((0 : ℤ) + 5 ≤ 0) := by
  refine ⟨rfl, rfl, by decide⟩

/-- C5 (amended).  Within one client instance the guarantee holds: for
any serialized sequence of `_rate_limit` passes of a single client
(serialization is what `self._request_lock` provides — the elapsed-time
check, the sleep, and the timestamp update all run inside the lock), any
two consecutive dispatch instants are at least `minInterval` apart, for
every interval and every arrival schedule; and `minInterval = 0` is a
valid configuration meaning no throttling: the step dispatches at `now`
immediately whenever time has not run backwards. -/
theorem throttle_spacing_per_client (t l now : ℤ) (ts : List ℤ) (hl : l ≤ now) :
    (throttleTrace t none ts).Chain' (fun a b => a + t ≤ b) ∧
    rateLimitStep 0 (some l) now = (now, some now) := by
  refine ⟨(throttleTrace_spacing t ts none).1, ?_⟩
  have h : ¬ (now - l < 0) := by simp only [not_lt, sub_nonneg]; exact hl
  simp [rateLimitStep, h]

/-- Witness for C5's amended theorem: with interval 5 and arrivals
0, 1, 20 the dispatches are 0, 5, 20 — consecutive gaps at least 5 —
and a zero interval passes the arrival through unchanged. -/
theorem throttle_spacing_per_client_witness :
    (throttleTrace 5 none [0, 1, 20]).Chain' (fun a b => a + 5 ≤ b) ∧
    rateLimitStep 0 (some 2) 7 = (7, some 7) :=
  throttle_spacing_per_client 5 2 7 [0, 1, 20] (by decide)

/-! ## C10: app/version identification injected into every request -/

/-- C10 (confirmed).  `_request` assigns `params["app"]` and
`params["version"]` before the cache key is computed, so both pairs are
present in the parameter dict used for the fingerprint and the outbound
query string (and in its sorted rendering), for every caller-supplied
parameter mapping; and because of `params = params or {}`, the
caller-supplied dictionary object itself is the one mutated whenever a
non-empty mapping is passed, while `None` or an empty dict make
`_request` work on a fresh dict. -/
theorem request_app_version_injection (cfg : Config) (params0 : Option Params) (p : Params) :
    (("app", cfg.appName) ∈ requestParams cfg params0 ∧
     ("version", cfg.appVersion) ∈ requestParams cfg params0) ∧
    (("app", cfg.appName) ∈ sortedParams (requestParams cfg params0) ∧
     ("version", cfg.appVersion) ∈ sortedParams (requestParams cfg params0)) ∧
    (lookupParam (requestParams cfg params0) "app" = some cfg.appName ∧
     lookupParam (requestParams cfg params0) "version" = some cfg.appVersion) ∧
    (p ≠ [] → callerParamsAfter cfg (some p) = some (requestParams cfg (some p))) ∧
    callerParamsAfter cfg (some []) = some [] ∧
    callerParamsAfter cfg none = none := by
  have happ : ("app", cfg.appName) ∈ requestParams cfg params0 :=
    mem_dinsert_of_ne _ (mem_dinsert_self _ _ _) (by decide)
  have hver : ("version", cfg.appVersion) ∈ requestParams cfg params0 :=
    mem_dinsert_self _ _ _
  refine ⟨⟨happ, hver⟩, ?_, ⟨?_, ?_⟩, ?_, rfl, rfl⟩
  · exact ⟨(List.perm_insertionSort pairLe _).mem_iff.mpr happ,
      (List.perm_insertionSort pairLe _).mem_iff.mpr hver⟩
  · unfold requestParams
    rw [lookup_dinsert_ne _ _ (by decide)]
    exact lookup_dinsert_self _ _ _
  · exact lookup_dinsert_self _ _ _
  · intro hp
    cases p with
    | nil => exact absurd rfl hp
    | cons a l => rfl

/-- Witness for C10 at a concrete configuration and caller dict. -/
theorem request_app_version_injection_witness :
    ("app", "aareguru-mcp") ∈ requestParams ⟨"aareguru-mcp", "4.0.0", 120, 1⟩
      (some [("city", "bern")]) ∧
    callerParamsAfter ⟨"aareguru-mcp", "4.0.0", 120, 1⟩ (some [("city", "bern")]) =
      some (requestParams ⟨"aareguru-mcp", "4.0.0", 120, 1⟩ (some [("city", "bern")])) :=
  ⟨(request_app_version_injection ⟨"aareguru-mcp", "4.0.0", 120, 1⟩
      (some [("city", "bern")]) [("city", "bern")]).1.1,
   (request_app_version_injection ⟨"aareguru-mcp", "4.0.0", 120, 1⟩
      (some [("city", "bern")]) [("city", "bern")]).2.2.2.1 (by decide)⟩

/-! ## C1: cache-hit frame conditions -/

/-- C1 (confirmed).  On a cache hit — `useCache` true and a valid
(unexpired) entry under the fingerprint — `_request` returns the cached
value with the client state completely unchanged (no cache mutation, no
throttle-timestamp mutation) and zero outbound calls; in general every
invocation performs at most one outbound call, and the throttle
timestamp changes only when a dispatch actually happened. -/
theorem request_cache_hit_frame {D : Type} (cfg : Config) (net : Net D) (st : ClientState D)
    (now : ℤ) (endpoint : String) (params0 : Option Params) (e : CacheEntry D) (uc : Bool) :
    (cacheLookup st.cache (getCacheKey endpoint (requestParams cfg params0)) = some e →
      isExpired e now = false →
      requestModel cfg net st now endpoint params0 true = (.ok e.data, st, 0)) ∧
    (requestModel cfg net st now endpoint params0 uc).2.2 ≤ 1 ∧
    ((requestModel cfg net st now endpoint params0 uc).2.1.lastRequestTime ≠
        st.lastRequestTime →
      (requestModel cfg net st now endpoint params0 uc).2.2 = 1) := by
  refine ⟨?_, ?_, ?_⟩
  · intro h1 h2
    have hc := getCached_hit st.cache
      (getCacheKey endpoint (requestParams cfg params0)) now e h1 h2
    simp [requestModel, hc]
  · simp only [requestModel]
    split
    · simp
    · split <;> simp
  · simp only [requestModel]
    split
    · intro hne
      exact absurd rfl hne
    · split <;> intro _ <;> rfl

/-- Cache key of the `/v2018/current` endpoint for a given city (this is
the fingerprint `_request` computes for `get_current`). -/
def currentKey (cfg : Config) (city : String) : String :=
  getCacheKey "/v2018/current" (requestParams cfg (some [("city", city)]))

/-- Concrete settings (config.py defaults; ttl 120 ticks, interval 1). -/
def cfg0 : Config := ⟨"aareguru-mcp", "4.0.0", 120, 1⟩

/-- A transport oracle answering every request with payload `7`. -/
def net0 : Net ℕ := fun _ _ => .ok 7

/-- A client state holding a valid entry for the Bern current fingerprint. -/
def stHit : ClientState ℕ := ⟨[(currentKey cfg0 "bern", ⟨42, 100⟩)], some 7⟩

/-- Witness for C1: a hit on the concrete state returns the cached 42,
leaves the state untouched and performs zero outbound calls. -/
theorem request_cache_hit_frame_witness :
    requestModel cfg0 net0 stHit 50 "/v2018/current" (some [("city", "bern")]) true =
      (.ok 42, stHit, 0) :=
  (request_cache_hit_frame cfg0 net0 stHit 50 "/v2018/current" (some [("city", "bern")])
      ⟨42, 100⟩ true).1 (by simp [stHit, currentKey, cacheLookup, lookupParam]) (by decide)

/-! ## C4: error propagation and caching of the raw payload -/

theorem getCached_some {D : Type} (c : Cache D) (k : String) (now : ℤ) (d : D)
    (h : (getCached c k now).1 = some d) :
    (getCached c k now).2 = c ∧ ∃ en, cacheLookup c k = some en ∧ en.data = d := by
  unfold getCached at h ⊢
  cases hl : cacheLookup c k with
  | none => simp [hl] at h
  | some e =>
      simp only [hl] at h ⊢
      by_cases he : isExpired e now = true
      · simp [he] at h
      · rw [if_neg he] at h ⊢
        simp only [Option.some.injEq] at h
        exact ⟨rfl, e, rfl, h⟩

/-- On a successful `_request` with `use_cache=True`, the client's cache
afterwards holds an entry for the fingerprint whose data is exactly the
returned raw payload (either the pre-existing valid entry that was hit,
or the freshly stored raw JSON). -/
theorem requestModel_ok_lookup {D : Type} (cfg : Config) (net : Net D) (st : ClientState D)
    (now : ℤ) (endpoint : String) (params0 : Option Params) (d : D) (st' : ClientState D)
    (n : Nat)
    (h : requestModel cfg net st now endpoint params0 true = (.ok d, st', n)) :
    ∃ en, cacheLookup st'.cache (getCacheKey endpoint (requestParams cfg params0)) = some en ∧
      en.data = d := by
  simp only [requestModel, if_true] at h
  split at h
  case h_1 d0 heq =>
    simp only [Prod.mk.injEq, Except.ok.injEq] at h
    obtain ⟨rfl, rfl, -⟩ := h
    obtain ⟨h2, en, hen, hd⟩ := getCached_some st.cache _ now d0 heq
    rw [h2]
    exact ⟨en, hen, hd⟩
  case h_2 heq =>
    split at h
    case h_1 d0 hnet =>
      simp only [Prod.mk.injEq, Except.ok.injEq] at h
      obtain ⟨rfl, rfl, -⟩ := h
      exact ⟨_, lookup_dinsert_self _ _ _, rfl⟩
    case h_2 e hnet =>
      simp at h

/-- On a failed `_request` with `use_cache=True`, the cache afterwards
holds no entry for the fingerprint, and every other key is unchanged. -/
theorem requestModel_error_cache {D : Type} (cfg : Config) (net : Net D)
    (st : ClientState D) (now : ℤ) (endpoint : String) (params0 : Option Params)
    (e : NetError) (st' : ClientState D) (n : Nat)
    (h : requestModel cfg net st now endpoint params0 true = (.error e, st', n)) :
    cacheLookup st'.cache (getCacheKey endpoint (requestParams cfg params0)) = none ∧
    ∀ k', k' ≠ getCacheKey endpoint (requestParams cfg params0) →
      cacheLookup st'.cache k' = cacheLookup st.cache k' := by
  simp only [requestModel, if_true] at h
  split at h
  case h_1 d0 heq => simp at h
  case h_2 heq =>
    split at h
    case h_1 d0 hnet => simp at h
    case h_2 e0 hnet =>
      simp only [Prod.mk.injEq, Except.error.injEq] at h
      obtain ⟨rfl, rfl, -⟩ := h
      exact ⟨getCached_miss_lookup st.cache _ now heq,
        fun k' hk' => getCached_snd_lookup_ne st.cache _ now hk'⟩

/-- Projection form of `requestModel_ok_lookup`. -/
theorem requestModel_ok_lookup_fst {D : Type} (cfg : Config) (net : Net D)
    (st : ClientState D) (now : ℤ) (endpoint : String) (params0 : Option Params) (d : D)
    (h : (requestModel cfg net st now endpoint params0 true).1 = .ok d) :
    ∃ en, cacheLookup (requestModel cfg net st now endpoint params0 true).2.1.cache
        (getCacheKey endpoint (requestParams cfg params0)) = some en ∧ en.data = d := by
  rcases hr : requestModel cfg net st now endpoint params0 true with ⟨res, st', n⟩
  rw [hr] at h
  cases res with
  | error e0 => cases h
  | ok d0 =>
      cases h
      exact requestModel_ok_lookup cfg net st now endpoint params0 d st' n hr

/-- Projection form of `requestModel_error_cache`. -/
theorem requestModel_error_cache_fst {D : Type} (cfg : Config) (net : Net D)
    (st : ClientState D) (now : ℤ) (endpoint : String) (params0 : Option Params) (e : NetError)
    (h : (requestModel cfg net st now endpoint params0 true).1 = .error e) :
    cacheLookup (requestModel cfg net st now endpoint params0 true).2.1.cache
        (getCacheKey endpoint (requestParams cfg params0)) = none ∧
    ∀ k', k' ≠ getCacheKey endpoint (requestParams cfg params0) →
      cacheLookup (requestModel cfg net st now endpoint params0 true).2.1.cache k' =
        cacheLookup st.cache k' := by
  rcases hr : requestModel cfg net st now endpoint params0 true with ⟨res, st', n⟩
  rw [hr] at h
  cases res with
  | ok d0 => cases h
  | error e0 =>
      cases h
      exact requestModel_error_cache cfg net st now endpoint params0 e st' n hr

/-- The schema decoder rejecting every payload (a response that parses
as JSON but fails `CurrentResponse(**data)` validation). -/
def decFail : ℕ → Except String CurrentResp := fun _ => .error "validation failed"

/-- C4 counterexample.  The claim says a fetch whose response fails
schema validation does not cache any value.  In the code `_request`
caches the raw JSON dict (line 191) before `get_current` validates it
(line 261), so after a validation failure against a fresh client the
cache DOES hold a new entry for the fingerprint, carrying the raw
payload: starting from the empty cache, the fetch raises the validation
error yet the cache afterwards contains the undecoded payload `7`. -/
theorem decode_failure_caches_raw_cx :
    (getCurrentModel cfg0 net0 decFail (initClient ℕ) 0 "bern").1 =
      .error (.validation "validation failed") ∧
    (getCurrentModel cfg0 net0 decFail (initClient ℕ) 0 "bern").2.cache =
      [(currentKey cfg0 "bern", mkCacheEntry 7 cfg0.cacheTtl 0)] ∧
    cacheLookup (initClient ℕ).cache (currentKey cfg0 "bern") = none := by
  refine ⟨by rfl, by rfl, by rfl⟩

/-- C4 (amended).  A transport failure propagates and leaves no cache
entry under the fingerprint (and every other fingerprint unchanged); a
schema-validation failure propagates the validation error to the caller,
but the raw JSON payload of the HTTP-successful response is cached
before validation, so afterwards the cache holds under that fingerprint
an entry whose payload is exactly the one the decoder rejected. -/
theorem fetch_error_cache_amended {D : Type} (cfg : Config) (net : Net D)
    (dec : D → Except String CurrentResp) (st : ClientState D) (now : ℤ) (city : String)
    (e : NetError) (m : String) (k' : String) :
    ((getCurrentModel cfg net dec st now city).1 = .error (.transport e) →
      cacheLookup (getCurrentModel cfg net dec st now city).2.cache
          (currentKey cfg city) = none ∧
      (k' ≠ currentKey cfg city →
        cacheLookup (getCurrentModel cfg net dec st now city).2.cache k' =
          cacheLookup st.cache k')) ∧
    ((getCurrentModel cfg net dec st now city).1 = .error (.validation m) →
      ∃ en, cacheLookup (getCurrentModel cfg net dec st now city).2.cache
          (currentKey cfg city) = some en ∧ dec en.data = .error m) := by
  constructor
  · intro h
    simp only [getCurrentModel] at h ⊢
    cases hq : (requestModel cfg net st now "/v2018/current"
        (some [("city", city)]) true).1 with
    | error e0 =>
        have hc := requestModel_error_cache_fst cfg net st now "/v2018/current"
          (some [("city", city)]) e0 hq
        exact ⟨hc.1, fun hk => hc.2 k' hk⟩
    | ok d =>
        rw [hq] at h
        simp only [getCurrentResult, decodeCurrent] at h
        cases hd : dec d with
        | ok r => rw [hd] at h; simp at h
        | error msg => rw [hd] at h; simp at h
  · intro h
    simp only [getCurrentModel] at h ⊢
    cases hq : (requestModel cfg net st now "/v2018/current"
        (some [("city", city)]) true).1 with
    | error e0 => rw [hq] at h; simp [getCurrentResult] at h
    | ok d =>
        rw [hq] at h
        simp only [getCurrentResult, decodeCurrent] at h
        cases hd : dec d with
        | ok r => rw [hd] at h; simp at h
        | error msg =>
            rw [hd] at h
            simp only [Except.error.injEq, FetchError.validation.injEq] at h
            subst h
            obtain ⟨en, hen, hdata⟩ := requestModel_ok_lookup_fst cfg net st now
              "/v2018/current" (some [("city", city)]) d hq
            exact ⟨en, hen, by rw [hdata, hd]⟩

/-- The always-failing transport oracle (connection errors). -/
def netErr : Net ℕ := fun _ _ => .error .requestError

/-- Witness for C4's amended theorem: a transport failure against a
fresh client leaves no entry under the fingerprint, and the concrete
validation failure of `decode_failure_caches_raw_cx`'s scenario exposes
the cached raw payload. -/
theorem fetch_error_cache_amended_witness :
    cacheLookup (getCurrentModel cfg0 netErr decFail (initClient ℕ) 0 "bern").2.cache
        (currentKey cfg0 "bern") = none ∧
    (∃ en, cacheLookup (getCurrentModel cfg0 net0 decFail (initClient ℕ) 0 "bern").2.cache
        (currentKey cfg0 "bern") = some en ∧ decFail en.data = .error "validation failed") :=
  ⟨((fetch_error_cache_amended cfg0 netErr decFail (initClient ℕ) 0 "bern"
      .requestError "validation failed" "").1 (by rfl)).1,
   (fetch_error_cache_amended cfg0 net0 decFail (initClient ℕ) 0 "bern"
      .requestError "validation failed" "").2 (by rfl)⟩

/-! ## C2: all-failed escalation -/

theorem cityData_eq_nil_iff (op : String → Except String CurrentResp) (cities : List String) :
    cityData op cities = [] ↔ ∀ c ∈ cities, ∃ er, procCompare op c = .error er := by
  rw [cityData, List.filterMap_eq_nil_iff]
  constructor
  · intro h c hc
    cases hp : procCompare op c with
    | error er => exact ⟨er, rfl⟩
    | ok v =>
        have := h c hc
        rw [hp] at this
        simp [Except.toOption] at this
  · intro h c hc
    obtain ⟨er, her⟩ := h c hc
    simp [her, Except.toOption]

theorem forecastsFold_eq_nil_iff (op : String → Except String CurrentResp) :
    ∀ (cities : List String) (acc : List (String × ForecastEntry)),
      cities.foldl (forecastStepFold op) acc = [] ↔
        acc = [] ∧ ∀ c ∈ cities, ∃ er, procForecast op c = .error er := by
  intro cities
  induction cities with
  | nil => simp
  | cons c rest ih =>
      intro acc
      rw [List.foldl_cons]
      cases hp : procForecast op c with
      | ok f =>
          rw [forecastStepFold, hp]
          rw [ih (dinsert c f acc)]
          constructor
          · rintro ⟨habs, -⟩
            exact absurd habs (dinsert_ne_nil c f acc)
          · rintro ⟨-, hall⟩
            obtain ⟨er, her⟩ := hall c (List.mem_cons_self c rest)
            rw [hp] at her
            cases her
      | error er0 =>
          rw [forecastStepFold, hp]
          rw [ih acc]
          constructor
          · rintro ⟨ha, hall⟩
            refine ⟨ha, fun c' hc' => ?_⟩
            rcases List.mem_cons.mp hc' with rfl | hc'
            · exact ⟨er0, hp⟩
            · exact hall c' hc'
          · rintro ⟨ha, hall⟩
            exact ⟨ha, fun c' hc' => hall c' (List.mem_cons_of_mem c hc')⟩

theorem forecastsMap_eq_nil_iff (op : String → Except String CurrentResp)
    (cities : List String) :
    forecastsMap op cities = [] ↔ ∀ c ∈ cities, ∃ er, procForecast op c = .error er := by
  rw [forecastsMap, forecastsFold_eq_nil_iff]
  simp

/-- C2 (confirmed).  Both fan-outs raise their `RuntimeError` exactly
when the input is non-empty and every key failed; the raised error
carries the requested count and the first (at most 3) per-key failures;
and a fan-out over an empty key sequence returns an aggregate result
with empty successes and failures without raising. -/
theorem fanout_all_failed_iff (op : String → Except String CurrentResp)
    (cities : List String) (a b : AllFailed) :
    ((∃ x, compareCities op cities = .error x) ↔
      cities ≠ [] ∧ ∀ c ∈ cities, ∃ er, procCompare op c = .error er) ∧
    (compareCities op cities = .error a →
      a.requested = cities.length ∧ a.summary = (compErrors op cities).take 3 ∧
      a.summary.length ≤ 3) ∧
    compareCities op [] = .ok ⟨[], none, none, 0, 0, 0, none⟩ ∧
    ((∃ y, getForecasts op cities = .error y) ↔
      cities ≠ [] ∧ ∀ c ∈ cities, ∃ er, procForecast op c = .error er) ∧
    (getForecasts op cities = .error b →
      b.requested = cities.length ∧ b.summary = (forecastErrors op cities).take 3 ∧
      b.summary.length ≤ 3) ∧
    getForecasts op [] = .ok ⟨[], 0, 0, none⟩ := by
  refine ⟨?_, ?_, rfl, ?_, ?_, rfl⟩
  · constructor
    · rintro ⟨x, hx⟩
      simp only [compareCities] at hx
      split at hx
      case isTrue hcond =>
          obtain ⟨h0, hpos⟩ := hcond
          refine ⟨List.length_pos.mp hpos, ?_⟩
          rw [← cityData_eq_nil_iff op cities]
          simp only [sortedCityData] at h0
          exact List.length_eq_zero.mp
            ((List.perm_insertionSort tempGE (cityData op cities)).symm.length_eq.trans h0)
      case isFalse hcond => cases hx
    · rintro ⟨hne, hall⟩
      have hdata : cityData op cities = [] := (cityData_eq_nil_iff op cities).mpr hall
      simp only [compareCities]
      rw [if_pos ⟨by simp [sortedCityData, hdata], List.length_pos.mpr hne⟩]
      exact ⟨_, rfl⟩
  · intro h
    simp only [compareCities] at h
    split at h
    case isTrue hcond =>
        injection h with h
        subst h
        exact ⟨rfl, rfl, by simpa using List.length_take_le 3 (compErrors op cities)⟩
    case isFalse hcond => cases h
  · constructor
    · rintro ⟨y, hy⟩
      simp only [getForecasts] at hy
      split at hy
      case isTrue hcond =>
          obtain ⟨h0, hpos⟩ := hcond
          exact ⟨List.length_pos.mp hpos,
            (forecastsMap_eq_nil_iff op cities).mp (List.length_eq_zero.mp h0)⟩
      case isFalse hcond => cases hy
    · rintro ⟨hne, hall⟩
      have hmap : forecastsMap op cities = [] := (forecastsMap_eq_nil_iff op cities).mpr hall
      simp only [getForecasts]
      rw [if_pos ⟨by simp [hmap], List.length_pos.mpr hne⟩]
      exact ⟨_, rfl⟩
  · intro h
    simp only [getForecasts] at h
    split at h
    case isTrue hcond =>
        injection h with h
        subst h
        exact ⟨rfl, rfl, by simpa using List.length_take_le 3 (forecastErrors op cities)⟩
    case isFalse hcond => cases h

/-- The per-city operation that always fails at the transport level. -/
def opBoom : String → Except String CurrentResp := fun _ => .error "boom"

/-- Witness for C2: four keys all failing make `compare_cities` raise,
and two keys all failing make `get_forecasts` raise. -/
theorem fanout_all_failed_iff_witness :
    (∃ x, compareCities opBoom ["a", "b", "c", "d"] = .error x) ∧
    (∃ y, getForecasts opBoom ["a", "b"] = .error y) :=
  ⟨(fanout_all_failed_iff opBoom ["a", "b", "c", "d"] ⟨0, []⟩ ⟨0, []⟩).1.mpr
      ⟨by simp, fun c _ => ⟨⟨c, "boom"⟩, rfl⟩⟩,
   (fanout_all_failed_iff opBoom ["a", "b"] ⟨0, []⟩ ⟨0, []⟩).2.2.2.1.mpr
      ⟨by simp, fun c _ => ⟨⟨c, "boom"⟩, rfl⟩⟩⟩

/-! ## C3: fan-out completeness and isolation -/

theorem procCompare_ok_city (op : String → Except String CurrentResp) (c : String)
    (en : CityEntry) (h : procCompare op c = .ok en) : en.city = c := by
  unfold procCompare at h
  split at h
  · cases h
  · split at h
    · cases h
    · cases h
      rfl

theorem procCompare_err_city (op : String → Except String CurrentResp) (c : String)
    (er : ErrItem) (h : procCompare op c = .error er) : er.city = c := by
  unfold procCompare at h
  split at h
  · cases h
    rfl
  · split at h
    · cases h
      rfl
    · cases h

theorem procForecast_err_city (op : String → Except String CurrentResp) (c : String)
    (er : ErrItem) (h : procForecast op c = .error er) : er.city = c := by
  unfold procForecast at h
  split at h
  · cases h
    rfl
  · split at h
    · cases h
      rfl
    · cases h

/-- Whether a city's `fetch_conditions` outcome lands in `city_data`. -/
def compOk (op : String → Except String CurrentResp) (c : String) : Bool :=
  match procCompare op c with
  | .ok _ => true
  | .error _ => false

/-- Whether a city's `fetch_forecast` outcome lands in `forecasts`. -/
def fcOk (op : String → Except String CurrentResp) (c : String) : Bool :=
  match procForecast op c with
  | .ok _ => true
  | .error _ => false

theorem cityData_map_city (op : String → Except String CurrentResp) (cities : List String) :
    (cityData op cities).map (fun e => e.city) = cities.filter (fun c => compOk op c) := by
  induction cities with
  | nil => rfl
  | cons c rest ih =>
      simp only [cityData, compOk, Except.toOption, List.filterMap_cons,
        List.filter_cons] at ih ⊢
      cases hp : procCompare op c with
      | error er => simp [hp, Except.toOption, ih]
      | ok en => simp [hp, Except.toOption, procCompare_ok_city op c en hp, ih]

theorem compErrors_map_city (op : String → Except String CurrentResp) (cities : List String) :
    (compErrors op cities).map (fun e => e.city) =
      cities.filter (fun c => !(compOk op c)) := by
  induction cities with
  | nil => rfl
  | cons c rest ih =>
      simp only [compErrors, compOk, List.filterMap_cons, List.filter_cons] at ih ⊢
      cases hp : procCompare op c with
      | error er => simp [hp, procCompare_err_city op c er hp, ih]
      | ok en => simp [hp, ih]

theorem forecastErrors_map_city (op : String → Except String CurrentResp)
    (cities : List String) :
    (forecastErrors op cities).map (fun e => e.city) =
      cities.filter (fun c => !(fcOk op c)) := by
  induction cities with
  | nil => rfl
  | cons c rest ih =>
      simp only [forecastErrors, fcOk, List.filterMap_cons, List.filter_cons] at ih ⊢
      cases hp : procForecast op c with
      | error er => simp [hp, procForecast_err_city op c er hp, ih]
      | ok en => simp [hp, ih]

theorem filter_partition_perm {α : Type} (p : α → Bool) (l : List α) :
    (l.filter p ++ l.filter (fun a => !(p a))).Perm l := by
  induction l with
  | nil => simp
  | cons a rest ih =>
      cases hp : p a with
      | true => simpa [List.filter_cons, hp] using ih.cons a
      | false =>
          have h1 : (a :: rest).filter p = rest.filter p := by
            simp [List.filter_cons, hp]
          have h2 : (a :: rest).filter (fun x => !(p x)) =
              a :: rest.filter (fun x => !(p x)) := by
            simp [List.filter_cons, hp]
          rw [h1, h2]
          exact List.perm_middle.trans (ih.cons a)

theorem lookupParam_append {V : Type} (l1 l2 : List (String × V)) (k : String)
    (h : lookupParam l1 k = none) : lookupParam (l1 ++ l2) k = lookupParam l2 k := by
  induction l1 with
  | nil => rfl
  | cons a rest ih =>
      obtain ⟨a1, a2⟩ := a
      by_cases ha : a1 = k
      · simp [lookupParam, ha] at h
      · simp only [lookupParam, if_neg ha] at h
        simp only [List.cons_append, lookupParam, if_neg ha]
        exact ih h

theorem dinsert_eq_append {V : Type} (k : String) (v : V) (l : List (String × V))
    (h : lookupParam l k = none) : dinsert k v l = l ++ [(k, v)] := by
  induction l with
  | nil => rfl
  | cons a rest ih =>
      obtain ⟨a1, a2⟩ := a
      by_cases ha : a1 = k
      · simp [lookupParam, ha] at h
      · simp only [lookupParam, if_neg ha] at h
        simp [dinsert, ha, ih h]

/-- Projection of a forecast outcome into the dict entry it contributes. -/
def forecastProj (op : String → Except String CurrentResp) (c : String) :
    Option (String × ForecastEntry) :=
  (procForecast op c).toOption.map (fun f => (c, f))

theorem foldl_forecast_append (op : String → Except String CurrentResp) :
    ∀ (cities : List String) (acc : List (String × ForecastEntry)),
      cities.Nodup → (∀ c ∈ cities, lookupParam acc c = none) →
      cities.foldl (forecastStepFold op) acc = acc ++ cities.filterMap (forecastProj op) := by
  intro cities
  induction cities with
  | nil =>
      intro acc _ _
      simp
  | cons c rest ih =>
      intro acc hnd hacc
      rw [List.foldl_cons]
      cases hp : procForecast op c with
      | error er =>
          simp only [forecastStepFold, hp]
          rw [ih acc hnd.of_cons
            (fun c' hc' => hacc c' (List.mem_cons_of_mem c hc'))]
          simp [List.filterMap_cons, forecastProj, hp, Except.toOption]
      | ok f =>
          simp only [forecastStepFold, hp]
          have hlook : lookupParam acc c = none := hacc c (List.mem_cons_self c rest)
          rw [dinsert_eq_append c f acc hlook]
          rw [ih (acc ++ [(c, f)]) hnd.of_cons ?_]
          · simp [List.filterMap_cons, forecastProj, hp, Except.toOption]
          · intro c' hc'
            have hne : ¬ (c = c') := by
              intro he
              exact (List.nodup_cons.mp hnd).1 (he ▸ hc')
            rw [lookupParam_append acc [(c, f)] c'
              (hacc c' (List.mem_cons_of_mem c hc'))]
            simp [lookupParam, hne]

theorem forecastsMap_eq_filterMap (op : String → Except String CurrentResp)
    (cities : List String) (h : cities.Nodup) :
    forecastsMap op cities = cities.filterMap (forecastProj op) := by
  rw [forecastsMap, foldl_forecast_append op cities [] h (fun c _ => rfl)]
  simp

theorem filterMap_forecastProj_map_fst (op : String → Except String CurrentResp)
    (cities : List String) :
    (cities.filterMap (forecastProj op)).map Prod.fst =
      cities.filter (fun c => fcOk op c) := by
  induction cities with
  | nil => rfl
  | cons c rest ih =>
      cases hp : procForecast op c with
      | error er =>
          simp [List.filterMap_cons, forecastProj, hp, Except.toOption, List.filter_cons,
            fcOk, ih]
      | ok f =>
          simp [List.filterMap_cons, forecastProj, hp, Except.toOption, List.filter_cons,
            fcOk, ih]

/-- An operation that always succeeds with the same payload. -/
def opDup : String → Except String CurrentResp :=
  fun _ => .ok ⟨some ⟨none, none, some 15, none, none, some 16⟩⟩

/-- C3 counterexample.  For the input key sequence `["bern", "bern"]`
(length 2) with an always-succeeding operation, `get_forecasts` returns
ONE outcome, not two: the `forecasts` dict collapses the duplicate key
(`forecasts[city] = result` overwrites), so `successes + failures` has
length 1 ≠ 2 and the duplicated key does not appear exactly once per
occurrence. -/
theorem fanout_completeness_cx :
    getForecasts opDup ["bern", "bern"] =
      .ok ⟨[("bern", ⟨some 15, some 16, "rising", some 1⟩)], 1, 2, none⟩ ∧
    1 + 0 ≠ 2 :=
  ⟨by decide, by decide⟩

/-- C3 (amended).  For input key sequences with pairwise-distinct keys
the claim holds for both fan-outs: the success keys together with the
failure keys are a permutation of the input keys (exactly N outcomes,
each key exactly once, never both, never dropped), and each key's
outcome is determined by that key's own operation result alone — one
key's failure cannot remove, cancel or alter another key's outcome.
(`compare_cities`, which keeps successes in a list, satisfies the count
even with duplicates; `get_forecasts` collapses duplicate keys because
successes live in a dict.) -/
theorem fanout_completeness (op : String → Except String CurrentResp)
    (cities : List String) (h : cities.Nodup) :
    ((sortedCityData op cities).map (fun e => e.city) ++
      (compErrors op cities).map (fun e => e.city)).Perm cities ∧
    ((forecastsMap op cities).map Prod.fst ++
      (forecastErrors op cities).map (fun e => e.city)).Perm cities ∧
    (∀ c ∈ cities, ∀ en : CityEntry,
      ((en ∈ sortedCityData op cities ∧ en.city = c) ↔ procCompare op c = .ok en)) ∧
    (∀ c ∈ cities, ∀ f : ForecastEntry,
      ((c, f) ∈ forecastsMap op cities ↔ procForecast op c = .ok f)) ∧
    (∀ c ∈ cities, ∀ er : ErrItem,
      ((er ∈ compErrors op cities ∧ er.city = c) ↔ procCompare op c = .error er)) ∧
    (∀ c ∈ cities, ∀ er : ErrItem,
      ((er ∈ forecastErrors op cities ∧ er.city = c) ↔ procForecast op c = .error er)) := by
  refine ⟨?_, ?_, ?_, ?_, ?_, ?_⟩
  · have hp : ((cityData op cities).map (fun e => e.city) ++
        (compErrors op cities).map (fun e => e.city)).Perm cities := by
      rw [cityData_map_city, compErrors_map_city]
      exact filter_partition_perm _ _
    exact (List.Perm.append_right _
      ((List.perm_insertionSort tempGE (cityData op cities)).map _)).trans hp
  · rw [forecastsMap_eq_filterMap op cities h, filterMap_forecastProj_map_fst,
      forecastErrors_map_city]
    exact filter_partition_perm _ _
  · intro c hc en
    constructor
    · rintro ⟨hmem, hcity⟩
      have hmem2 : en ∈ cityData op cities :=
        (List.perm_insertionSort tempGE (cityData op cities)).mem_iff.mp hmem
      obtain ⟨a, ha, hfa⟩ := List.mem_filterMap.mp hmem2
      cases hpa : procCompare op a with
      | error er => rw [hpa] at hfa; simp [Except.toOption] at hfa
      | ok en' =>
          rw [hpa] at hfa
          simp only [Except.toOption, Option.some.injEq] at hfa
          subst hfa
          have hac : a = c := (procCompare_ok_city op a en' hpa).symm.trans hcity
          rw [← hac]
          exact hpa
    · intro hp
      have hmem : en ∈ cityData op cities :=
        List.mem_filterMap.mpr ⟨c, hc, by simp [hp, Except.toOption]⟩
      exact ⟨(List.perm_insertionSort tempGE (cityData op cities)).mem_iff.mpr hmem,
        procCompare_ok_city op c en hp⟩
  · intro c hc f
    rw [forecastsMap_eq_filterMap op cities h]
    constructor
    · intro hmem
      obtain ⟨a, ha, hfa⟩ := List.mem_filterMap.mp hmem
      cases hpa : procForecast op a with
      | error er => rw [forecastProj, hpa] at hfa; simp [Except.toOption] at hfa
      | ok f' =>
          rw [forecastProj, hpa] at hfa
          simp only [Except.toOption, Option.map_some', Option.some.injEq,
            Prod.mk.injEq] at hfa
          obtain ⟨rfl, rfl⟩ := hfa
          exact hpa
    · intro hp
      exact List.mem_filterMap.mpr ⟨c, hc, by simp [forecastProj, hp, Except.toOption]⟩
  · intro c hc er
    constructor
    · rintro ⟨hmem, hcity⟩
      obtain ⟨a, ha, hfa⟩ := List.mem_filterMap.mp hmem
      cases hpa : procCompare op a with
      | ok en => rw [hpa] at hfa; cases hfa
      | error er' =>
          rw [hpa] at hfa
          simp only [Option.some.injEq] at hfa
          subst hfa
          have hac : a = c := (procCompare_err_city op a er' hpa).symm.trans hcity
          rw [← hac]
          exact hpa
    · intro hp
      exact ⟨List.mem_filterMap.mpr ⟨c, hc, by rw [hp]⟩,
        procCompare_err_city op c er hp⟩
  · intro c hc er
    constructor
    · rintro ⟨hmem, hcity⟩
      obtain ⟨a, ha, hfa⟩ := List.mem_filterMap.mp hmem
      cases hpa : procForecast op a with
      | ok f => rw [hpa] at hfa; cases hfa
      | error er' =>
          rw [hpa] at hfa
          simp only [Option.some.injEq] at hfa
          subst hfa
          have hac : a = c := (procForecast_err_city op a er' hpa).symm.trans hcity
          rw [← hac]
          exact hpa
    · intro hp
      exact ⟨List.mem_filterMap.mpr ⟨c, hc, by rw [hp]⟩,
        procForecast_err_city op c er hp⟩

/-- A mixed operation: `"x"` succeeds, everything else fails. -/
def opMix : String → Except String CurrentResp :=
  fun c => if c = "x" then .ok ⟨some ⟨none, none, some 10, none, none, some 11⟩⟩
           else .error "boom"

/-- Witness for C3's amended theorem on the distinct keys `["x", "y"]`
where `"y"` always fails: both fan-outs still account for both keys. -/
theorem fanout_completeness_witness :
    ((sortedCityData opMix ["x", "y"]).map (fun e => e.city) ++
      (compErrors opMix ["x", "y"]).map (fun e => e.city)).Perm ["x", "y"] ∧
    ((forecastsMap opMix ["x", "y"]).map Prod.fst ++
      (forecastErrors opMix ["x", "y"]).map (fun e => e.city)).Perm ["x", "y"] :=
  ⟨(fanout_completeness opMix ["x", "y"] (by decide)).1,
   (fanout_completeness opMix ["x", "y"] (by decide)).2.1⟩

/-! ## C6: ordering of fan-out results -/

instance : IsTotal CityEntry tempGE :=
  ⟨fun a b => le_total (tempKey b) (tempKey a)⟩

instance : IsTrans CityEntry tempGE :=
  ⟨fun _ _ _ h1 h2 => le_trans h2 h1⟩

theorem filterMap_map_key_sublist {β : Type} (f : String → Option β) (key : β → String)
    (hk : ∀ a b, f a = some b → key b = a) (l : List String) :
    ((l.filterMap f).map key).Sublist l := by
  induction l with
  | nil => simp
  | cons a rest ih =>
      cases hf : f a with
      | none =>
          rw [List.filterMap_cons_none hf]
          exact ih.cons a
      | some b =>
          rw [List.filterMap_cons_some hf, List.map_cons, hk a b hf]
          exact ih.cons₂ a

/-- An operation giving `"x"` temperature 10 and everything else 20. -/
def opC6 : String → Except String CurrentResp :=
  fun c => if c = "x" then .ok ⟨some ⟨none, none, some 10, none, none, none⟩⟩
           else .ok ⟨some ⟨none, none, some 20, none, none, none⟩⟩

/-- C6 counterexample.  The claim says the successes sequence preserves
the input key order in both fan-outs.  `compare_cities` sorts
`city_data` by temperature descending (line 382) before returning it, so
for the input `["x", "y"]` with temperatures 10 and 20 the successes
come back as `["y", "x"]`, not in input order. -/
theorem fanout_order_cx :
    (compareCities opC6 ["x", "y"]).map (fun r => r.cities.map (fun e => e.city)) =
      .ok ["y", "x"] ∧ ["y", "x"] ≠ ["x", "y"] :=
  ⟨by decide, by decide⟩

/-- C6 (amended).  Failures preserve input order in both fan-outs, and
`get_forecasts` successes preserve input order (for distinct keys); but
`compare_cities` successes are ordered by temperature descending (the
sort is stable, so only ties keep input order). -/
theorem fanout_order_amended (op : String → Except String CurrentResp)
    (cities : List String) (h : cities.Nodup) :
    ((compErrors op cities).map (fun e => e.city)).Sublist cities ∧
    ((forecastErrors op cities).map (fun e => e.city)).Sublist cities ∧
    ((forecastsMap op cities).map Prod.fst).Sublist cities ∧
    (sortedCityData op cities).Sorted tempGE := by
  refine ⟨?_, ?_, ?_, ?_⟩
  · refine filterMap_map_key_sublist _ _ ?_ cities
    intro a b hb
    cases hp : procCompare op a with
    | ok v => rw [hp] at hb; cases hb
    | error er =>
        rw [hp] at hb
        cases hb
        exact procCompare_err_city op a _ hp
  · refine filterMap_map_key_sublist _ _ ?_ cities
    intro a b hb
    cases hp : procForecast op a with
    | ok v => rw [hp] at hb; cases hb
    | error er =>
        rw [hp] at hb
        cases hb
        exact procForecast_err_city op a _ hp
  · rw [forecastsMap_eq_filterMap op cities h]
    refine filterMap_map_key_sublist _ _ ?_ cities
    intro a b hb
    cases hp : procForecast op a with
    | error er => rw [forecastProj, hp] at hb; cases hb
    | ok f =>
        rw [forecastProj, hp] at hb
        simp only [Except.toOption, Option.map_some', Option.some.injEq] at hb
        rw [← hb]
  · exact List.sorted_insertionSort tempGE (cityData op cities)

/-- Witness for C6's amended theorem at the concrete run of the
counterexample's operation. -/
theorem fanout_order_amended_witness :
    ((compErrors opC6 ["x", "y"]).map (fun e => e.city)).Sublist ["x", "y"] ∧
    ((forecastsMap opC6 ["x", "y"]).map Prod.fst).Sublist ["x", "y"] ∧
    (sortedCityData opC6 ["x", "y"]).Sorted tempGE :=
  ⟨(fanout_order_amended opC6 ["x", "y"] (by decide)).1,
   (fanout_order_amended opC6 ["x", "y"] (by decide)).2.2.1,
   (fanout_order_amended opC6 ["x", "y"] (by decide)).2.2.2⟩

/-! ## C9: extremal picks over fan-out successes -/

theorem orderedInsert_ne_nil (x : CityEntry) (s : List CityEntry) :
    List.orderedInsert tempGE x s ≠ [] := by
  cases s with
  | nil => simp [List.orderedInsert]
  | cons b t => by_cases h : tempGE x b <;> simp [List.orderedInsert, h]

theorem getLast?_cons_ne {α : Type} (a : α) (l : List α) (h : l ≠ []) :
    (a :: l).getLast? = l.getLast? := by
  cases l with
  | nil => exact absurd rfl h
  | cons b t => exact List.getLast?_cons_cons

theorem getLast?_mem_of_eq {α : Type} {l : List α} {a : α} (h : l.getLast? = some a) :
    a ∈ l := by
  obtain ⟨hne, rfl⟩ := List.mem_getLast?_eq_getLast (by rw [h]; exact rfl)
  exact List.getLast_mem hne

theorem orderedInsert_head (x : CityEntry) (s : List CityEntry) :
    (List.orderedInsert tempGE x s).head? =
      some (match s with
            | [] => x
            | b :: _ => if tempGE x b then x else b) := by
  cases s with
  | nil => rfl
  | cons b t => by_cases h : tempGE x b <;> simp [List.orderedInsert, h]

theorem sort_head_argmax (l : List CityEntry) :
    (List.insertionSort tempGE l).head? = argmaxFirst tempKey l := by
  induction l with
  | nil => rfl
  | cons x xs ih =>
      rw [List.insertionSort, orderedInsert_head]
      cases hs : List.insertionSort tempGE xs with
      | nil =>
          have hxs : xs = [] := List.eq_nil_of_length_eq_zero
            (by rw [← (List.perm_insertionSort tempGE xs).length_eq, hs]; rfl)
          subst hxs
          rfl
      | cons b t =>
          have hb : argmaxFirst tempKey xs = some b := by
            rw [← ih, hs]
            rfl
          simp only [argmaxFirst]
          rw [hb]
          by_cases hc : tempKey b ≤ tempKey x
          · simp [tempGE, hc, not_lt.mpr hc]
          · simp [tempGE, hc, not_le.mp hc]

theorem orderedInsert_getLast (x : CityEntry) :
    ∀ (s : List CityEntry), s.Sorted tempGE →
      (List.orderedInsert tempGE x s).getLast? =
        some (match s.getLast? with
              | none => x
              | some z => if tempGE x z then z else x) := by
  intro s
  induction s with
  | nil => intro _; rfl
  | cons b t ih =>
      intro hs
      have hrel : ∀ y ∈ t, tempGE b y := (List.pairwise_cons.mp hs).1
      by_cases h : tempGE x b
      · rw [List.orderedInsert, if_pos h, List.getLast?_cons_cons]
        cases hz : (b :: t).getLast? with
        | none => exact absurd (List.getLast?_eq_none.mp hz) (by simp)
        | some z =>
            have hxz : tempGE x z := by
              rcases List.mem_cons.mp (getLast?_mem_of_eq hz) with rfl | hzt
              · exact h
              · exact le_trans (hrel z hzt) h
            simp [hxz]
      · rw [List.orderedInsert, if_neg h]
        cases t with
        | nil => simp [List.orderedInsert, List.getLast?_cons_cons, h]
        | cons c t2 =>
            rw [getLast?_cons_ne b _ (orderedInsert_ne_nil x (c :: t2))]
            rw [ih (List.Pairwise.of_cons hs)]
            rw [List.getLast?_cons_cons]

theorem sort_getLast_argmin (l : List CityEntry) :
    (List.insertionSort tempGE l).getLast? = argminLast tempKey l := by
  induction l with
  | nil => rfl
  | cons x xs ih =>
      rw [List.insertionSort,
        orderedInsert_getLast x _ (List.sorted_insertionSort tempGE xs)]
      cases hs : (List.insertionSort tempGE xs).getLast? with
      | none =>
          have hxs : xs = [] := List.eq_nil_of_length_eq_zero
            (by
              rw [← (List.perm_insertionSort tempGE xs).length_eq,
                List.getLast?_eq_none.mp hs]
              rfl)
          subst hxs
          rfl
      | some z =>
          have hz : argminLast tempKey xs = some z := by rw [← ih, hs]
          simp only [argminLast]
          rw [hz]
          by_cases hc : tempKey z ≤ tempKey x
          · simp [tempGE, hc]
          · simp [tempGE, hc]

theorem argmaxFirst_cons_isSome {α : Type} (key : α → ℤ) (x : α) (xs : List α) :
    (argmaxFirst key (x :: xs)).isSome := by
  simp only [argmaxFirst]
  cases argmaxFirst key xs with
  | none => rfl
  | some y => by_cases h : key x < key y <;> simp [h]

theorem argmaxFirst_split {α : Type} (key : α → ℤ) :
    ∀ (l : List α) (c : α), argmaxFirst key l = some c →
      ∃ l₁ l₂, l = l₁ ++ c :: l₂ ∧ (∀ d ∈ l₁, key d < key c) ∧
        (∀ d ∈ l₂, key d ≤ key c) := by
  intro l
  induction l with
  | nil => intro c hc; cases hc
  | cons x xs ih =>
      intro c hc
      simp only [argmaxFirst] at hc
      cases hmax : argmaxFirst key xs with
      | none =>
          simp only [hmax] at hc
          cases hc
          cases xs with
          | nil => exact ⟨[], [], rfl, by simp, by simp⟩
          | cons y ys =>
              have := argmaxFirst_cons_isSome key y ys
              rw [hmax] at this
              cases this
      | some y =>
          simp only [hmax] at hc
          by_cases hlt : key x < key y
          · rw [if_pos hlt] at hc
            cases hc
            obtain ⟨l₁, l₂, heq, h1, h2⟩ := ih c hmax
            refine ⟨x :: l₁, l₂, by rw [heq, List.cons_append], ?_, h2⟩
            intro d hd
            rcases List.mem_cons.mp hd with rfl | hd2
            · exact hlt
            · exact h1 d hd2
          · rw [if_neg hlt] at hc
            cases hc
            obtain ⟨l₁, l₂, heq, h1, h2⟩ := ih y hmax
            refine ⟨[], xs, by simp, by simp, ?_⟩
            intro d hd
            have hyx : key y ≤ key x := not_lt.mp hlt
            rw [heq] at hd
            rcases List.mem_append.mp hd with hd1 | hd2
            · exact le_trans (le_of_lt (h1 d hd1)) hyx
            · rcases List.mem_cons.mp hd2 with rfl | hd3
              · exact hyx
              · exact le_trans (h2 d hd3) hyx

theorem argminLast_cons_isSome {α : Type} (key : α → ℤ) (x : α) (xs : List α) :
    (argminLast key (x :: xs)).isSome := by
  simp only [argminLast]
  cases argminLast key xs with
  | none => rfl
  | some y => by_cases h : key y ≤ key x <;> simp [h]

theorem argminLast_split {α : Type} (key : α → ℤ) :
    ∀ (l : List α) (c : α), argminLast key l = some c →
      ∃ l₁ l₂, l = l₁ ++ c :: l₂ ∧ (∀ d ∈ l₁, key c ≤ key d) ∧
        (∀ d ∈ l₂, key c < key d) := by
  intro l
  induction l with
  | nil => intro c hc; cases hc
  | cons x xs ih =>
      intro c hc
      simp only [argminLast] at hc
      cases hmin : argminLast key xs with
      | none =>
          simp only [hmin] at hc
          cases hc
          cases xs with
          | nil => exact ⟨[], [], rfl, by simp, by simp⟩
          | cons y ys =>
              have := argminLast_cons_isSome key y ys
              rw [hmin] at this
              cases this
      | some y =>
          simp only [hmin] at hc
          by_cases hle : key y ≤ key x
          · rw [if_pos hle] at hc
            cases hc
            obtain ⟨l₁, l₂, heq, h1, h2⟩ := ih c hmin
            refine ⟨x :: l₁, l₂, by rw [heq, List.cons_append], ?_, h2⟩
            intro d hd
            rcases List.mem_cons.mp hd with rfl | hd2
            · exact hle
            · exact h1 d hd2
          · rw [if_neg hle] at hc
            cases hc
            obtain ⟨l₁, l₂, heq, h1, h2⟩ := ih y hmin
            refine ⟨[], xs, by simp, by simp, ?_⟩
            intro d hd
            have hxy : key x < key y := not_le.mp hle
            rw [heq] at hd
            rcases List.mem_append.mp hd with hd1 | hd2
            · exact lt_of_lt_of_le hxy (h1 d hd1)
            · rcases List.mem_cons.mp hd2 with rfl | hd3
              · exact hxy
              · exact lt_trans hxy (h2 d hd3)

theorem pickLoop_split (cur : String) :
    ∀ (cs : List CityInfo) (a0 : Option CityInfo) (m : ℤ) (w : CityInfo) (t : ℤ),
      cs.foldl (suggestionStep cur) (a0, m) = (some w, t) →
      ((a0, m) = (some w, t) ∧
        ∀ d ∈ cs, d.city ≠ cur → ∀ td, d.aare = some td → td ≤ t) ∨
      (∃ l₁ l₂, cs = l₁ ++ w :: l₂ ∧ w.city ≠ cur ∧ w.aare = some t ∧ m < t ∧
        (∀ d ∈ l₁, d.city ≠ cur → ∀ td, d.aare = some td → td < t) ∧
        (∀ d ∈ l₂, d.city ≠ cur → ∀ td, d.aare = some td → td ≤ t)) := by
  intro cs
  induction cs with
  | nil =>
      intro a0 m w t h
      exact Or.inl ⟨h, by simp⟩
  | cons c rest ih =>
      intro a0 m w t h
      rw [List.foldl_cons] at h
      by_cases hcur : c.city ≠ cur
      · cases hca : c.aare with
        | none =>
            rw [show suggestionStep cur (a0, m) c = (a0, m) by
              simp [suggestionStep, hcur, hca]] at h
            rcases ih a0 m w t h with ⟨heq, hall⟩ | ⟨l₁, l₂, heq, hw, hwa, hmt, h1, h2⟩
            · refine Or.inl ⟨heq, fun d hd hdc td htd => ?_⟩
              rcases List.mem_cons.mp hd with rfl | hd2
              · rw [hca] at htd; cases htd
              · exact hall d hd2 hdc td htd
            · refine Or.inr ⟨c :: l₁, l₂, by rw [heq, List.cons_append], hw, hwa, hmt,
                fun d hd hdc td htd => ?_, h2⟩
              rcases List.mem_cons.mp hd with rfl | hd2
              · rw [hca] at htd; cases htd
              · exact h1 d hd2 hdc td htd
        | some tc =>
            by_cases hgt : m < tc
            · rw [show suggestionStep cur (a0, m) c = (some c, tc) by
                simp [suggestionStep, hcur, hca, hgt]] at h
              rcases ih (some c) tc w t h with ⟨heq, hall⟩ |
                ⟨l₁, l₂, heq, hw, hwa, hmt, h1, h2⟩
              · obtain ⟨hc1, hc2⟩ := Prod.mk.injEq .. ▸ heq
                injection hc1 with hc1
                subst hc1 hc2
                exact Or.inr ⟨[], rest, rfl, hcur, hca, hgt, by simp, hall⟩
              · refine Or.inr ⟨c :: l₁, l₂, by rw [heq, List.cons_append], hw, hwa,
                  lt_trans hgt hmt, fun d hd hdc td htd => ?_, h2⟩
                rcases List.mem_cons.mp hd with rfl | hd2
                · rw [hca] at htd
                  injection htd with htd
                  subst htd
                  exact hmt
                · exact h1 d hd2 hdc td htd
            · rw [show suggestionStep cur (a0, m) c = (a0, m) by
                simp [suggestionStep, hcur, hca, hgt]] at h
              rcases ih a0 m w t h with ⟨heq, hall⟩ |
                ⟨l₁, l₂, heq, hw, hwa, hmt, h1, h2⟩
              · refine Or.inl ⟨heq, fun d hd hdc td htd => ?_⟩
                rcases List.mem_cons.mp hd with rfl | hd2
                · rw [hca] at htd
                  injection htd with htd
                  subst htd
                  have hmt : m = t := by
                    injection heq with _ h2
                  exact hmt ▸ not_lt.mp hgt
                · exact hall d hd2 hdc td htd
              · refine Or.inr ⟨c :: l₁, l₂, by rw [heq, List.cons_append], hw, hwa, hmt,
                  fun d hd hdc td htd => ?_, h2⟩
                rcases List.mem_cons.mp hd with rfl | hd2
                · rw [hca] at htd
                  injection htd with htd
                  subst htd
                  exact lt_of_le_of_lt (not_lt.mp hgt) hmt
                · exact h1 d hd2 hdc td htd
      · rw [show suggestionStep cur (a0, m) c = (a0, m) by
          simp [suggestionStep, hcur]] at h
        rcases ih a0 m w t h with ⟨heq, hall⟩ | ⟨l₁, l₂, heq, hw, hwa, hmt, h1, h2⟩
        · refine Or.inl ⟨heq, fun d hd hdc td htd => ?_⟩
          rcases List.mem_cons.mp hd with rfl | hd2
          · exact absurd hdc hcur
          · exact hall d hd2 hdc td htd
        · refine Or.inr ⟨c :: l₁, l₂, by rw [heq, List.cons_append], hw, hwa, hmt,
            fun d hd hdc td htd => ?_, h2⟩
          rcases List.mem_cons.mp hd with rfl | hd2
          · exact absurd hdc hcur
          · exact h1 d hd2 hdc td htd

/-- The operation that answers temperature 18 for every city (a tie). -/
def opTie : String → Except String CurrentResp :=
  fun _ => .ok ⟨some ⟨none, none, some 18, none, none, none⟩⟩

/-- C9 counterexample.  The claim says the extremal picks return the
first-encountered (input-order) winner on ties.  `coldest` is
`city_data[-1]` of the stable descending sort, so on the tie
`[("x", 18), ("y", 18)]` it returns `y` — the LAST-encountered minimum —
not the first-encountered `x`. -/
theorem extremal_tie_cx :
    (compareCities opTie ["x", "y"]).map (fun r => r.coldest.map (fun e => e.city)) =
      .ok (some "y") ∧ some "y" ≠ some "x" :=
  ⟨by decide, by decide⟩

/-- C9 (amended).  The warmest pick (`city_data[0]` of the stable
descending sort) is the first-encountered maximum — on ties it returns
the earlier (input-order) entry — and the `get_warmer_suggestion` scan
(strict `>` against the running maximum) likewise keeps the
first-encountered winner; the coldest pick (`city_data[-1]`) is the
LAST-encountered minimum on ties; empty successes and a missing current
temperature yield `None` rather than raising. -/
theorem extremal_pick_amended (op : String → Except String CurrentResp)
    (cities : List String) (l : List CityEntry) (c : CityEntry) (r : CompareResult)
    (cur : String) (w : CityInfo) (t : ℤ) (cs : List CityInfo) :
    ((List.insertionSort tempGE l).head? = argmaxFirst tempKey l) ∧
    ((List.insertionSort tempGE l).getLast? = argminLast tempKey l) ∧
    (argmaxFirst tempKey l = some c →
      ∃ l₁ l₂, l = l₁ ++ c :: l₂ ∧ (∀ d ∈ l₁, tempKey d < tempKey c) ∧
        (∀ d ∈ l₂, tempKey d ≤ tempKey c)) ∧
    (argminLast tempKey l = some c →
      ∃ l₁ l₂, l = l₁ ++ c :: l₂ ∧ (∀ d ∈ l₁, tempKey c ≤ tempKey d) ∧
        (∀ d ∈ l₂, tempKey c < tempKey d)) ∧
    (compareCities op cities = .ok r →
      r.warmest = argmaxFirst tempKey (cityData op cities) ∧
      r.coldest = argminLast tempKey (cityData op cities)) ∧
    (argmaxFirst tempKey ([] : List CityEntry) = none ∧
      argminLast tempKey ([] : List CityEntry) = none ∧
      suggestionPick cur [] = (none, -100) ∧
      getWarmerSuggestion cur none cs = none) ∧
    (suggestionPick cur cs = (some w, t) →
      ∃ l₁ l₂, cs = l₁ ++ w :: l₂ ∧ w.city ≠ cur ∧ w.aare = some t ∧
        (∀ d ∈ l₁, d.city ≠ cur → ∀ td, d.aare = some td → td < t) ∧
        (∀ d ∈ l₂, d.city ≠ cur → ∀ td, d.aare = some td → td ≤ t)) := by
  refine ⟨sort_head_argmax l, sort_getLast_argmin l, argmaxFirst_split tempKey l c,
    argminLast_split tempKey l c, ?_, ⟨rfl, rfl, rfl, rfl⟩, ?_⟩
  · intro hok
    simp only [compareCities] at hok
    split at hok
    case isTrue => cases hok
    case isFalse =>
        injection hok with hok
        subst hok
        exact ⟨sort_head_argmax (cityData op cities), sort_getLast_argmin (cityData op cities)⟩
  · intro h
    rcases pickLoop_split cur cs none (-100) w t h with ⟨heq, -⟩ |
      ⟨l₁, l₂, heq, hw, hwa, -, h1, h2⟩
    · injection heq with heq1 heq2
      cases heq1
    · exact ⟨l₁, l₂, heq, hw, hwa, h1, h2⟩

/-- The tie-break compare result: both entries at 18, warmest is the
first-encountered `x`, coldest is the last-encountered `y`. -/
def rTie : CompareResult :=
  ⟨[⟨"x", some 18, none, true, none, none⟩, ⟨"y", some 18, none, true, none, none⟩,],
   some ⟨"x", some 18, none, true, none, none⟩,
   some ⟨"y", some 18, none, true, none, none⟩, 2, 2, 2, none⟩

/-- Witness for C9's amended theorem: on the concrete tie run the
warmest is the first-encountered `x`; and the suggestion scan over two
18-degree cities picks `thun`, the first-encountered winner. -/
theorem extremal_pick_amended_witness :
    (rTie.warmest = argmaxFirst tempKey (cityData opTie ["x", "y"]) ∧
      rTie.coldest = argminLast tempKey (cityData opTie ["x", "y"])) ∧
    (∃ l₁ l₂, [(⟨"thun", "Thun", some 18⟩ : CityInfo), ⟨"olten", "Olten", some 18⟩] =
      l₁ ++ (⟨"thun", "Thun", some 18⟩ : CityInfo) :: l₂ ∧
      (⟨"thun", "Thun", some 18⟩ : CityInfo).city ≠ "bern" ∧
      (⟨"thun", "Thun", some 18⟩ : CityInfo).aare = some 18 ∧
      (∀ d ∈ l₁, d.city ≠ "bern" → ∀ td, d.aare = some td → td < 18) ∧
      (∀ d ∈ l₂, d.city ≠ "bern" → ∀ td, d.aare = some td → td ≤ 18)) :=
  ⟨(extremal_pick_amended opTie ["x", "y"] [] ⟨"", none, none, true, none, none⟩ rTie
      "bern" ⟨"thun", "Thun", some 18⟩ 18
      [⟨"thun", "Thun", some 18⟩, ⟨"olten", "Olten", some 18⟩]).2.2.2.2.1 (by decide),
   (extremal_pick_amended opTie ["x", "y"] [] ⟨"", none, none, true, none, none⟩ rTie
      "bern" ⟨"thun", "Thun", some 18⟩ 18
      [⟨"thun", "Thun", some 18⟩, ⟨"olten", "Olten", some 18⟩]).2.2.2.2.2.2 (by decide)⟩

end Aareguru
